import Mathlib

/-!
Shallow embedding of the dev-events data layer:

* `src/database/event.model.ts` — the `Event` schema's `pre('save')` hook:
  slug generation (`slugify`, the uniqueness loop) and date/time
  normalization;
* `src/database/booking.model.ts` — the `Booking` schema's `pre('save')`
  hook: referential check against existing events;
* `src/lib/mongodb.ts` — the cached `connectToDatabase` accessor.

Strings are modelled as `String` / `List Char`; JS numbers holding
counters, timestamps and epoch milliseconds are modelled as `Nat` / `Int`.
Database state is modelled as the list of slugs of the *other* records
(for the identity-excluded slug lookup) resp. the list of existing event
identifiers (for the booking check).
-/

namespace DevEvents

/-- Characters matched by the JS regex class `\s` (the same set that
`String.prototype.trim` removes): ASCII whitespace plus the Unicode
space characters listed by ECMA-262. -/
def isJsSpace (c : Char) : Bool :=
  c = ' ' || c = '\t' || c = '\n' || c = '\r' ||
  c.toNat = 11 || c.toNat = 12 || c.toNat = 0xa0 || c.toNat = 0x1680 ||
  (0x2000 ≤ c.toNat && c.toNat ≤ 0x200a) ||
  c.toNat = 0x2028 || c.toNat = 0x2029 || c.toNat = 0x202f ||
  c.toNat = 0x205f || c.toNat = 0x3000 || c.toNat = 0xfeff

/-- `String.prototype.trim` at the character-list level: drop leading and
trailing JS whitespace. -/
def jsTrim (cs : List Char) : List Char :=
  ((cs.dropWhile isJsSpace).reverse.dropWhile isJsSpace).reverse

/-- `String.prototype.toLowerCase`, restricted to the ASCII simple case
mapping (the only part relevant to the `[a-z0-9\-\s]` filter: non-ASCII
letters are outside the class both before and after lowercasing). -/
def jsToLower (c : Char) : Char :=
  if 'A' ≤ c && c ≤ 'Z' then Char.ofNat (c.toNat + 32) else c

/-- Little-endian decimal digits of a natural number, with explicit fuel
(the fuel `n + 1` used below always suffices, since `n / 10 < n`). -/
def natDigitsAux : Nat → Nat → List Char
  | 0, _ => []
  | fuel + 1, n =>
    if n < 10 then [Nat.digitChar n]
    else Nat.digitChar (n % 10) :: natDigitsAux fuel (n / 10)

/-- Little-endian decimal digits of a natural number (always at least one
digit), used to model how JS renders numbers into strings. -/
def natDigitsLE (n : Nat) : List Char :=
  natDigitsAux (n + 1) n

/-- Decimal rendering of a natural number, as produced by JS template
literals and `String(n)` for integral values (`${Date.now()}`, `${i}`,
`String(hours)`). -/
def natRepr (n : Nat) : String :=
  ⟨(natDigitsLE n).reverse⟩

/-- Value of a little-endian digit list: inverse of `natDigitsLE`. -/
def valLE : List Char → Nat
  | [] => 0
  | c :: cs => (c.toNat - 48) + 10 * valLE cs

theorem digitChar_toNat {n : Nat} (h : n < 10) :
    (Nat.digitChar n).toNat = 48 + n := by
  interval_cases n <;> decide

theorem digitChar_isDigit {n : Nat} (h : n < 10) :
    '0' ≤ Nat.digitChar n ∧ Nat.digitChar n ≤ '9' := by
  interval_cases n <;> decide

theorem valLE_natDigitsAux :
    ∀ fuel n, n < fuel → valLE (natDigitsAux fuel n) = n := by
  intro fuel
  induction fuel with
  | zero => intro n h; omega
  | succ fuel ih =>
    intro n h
    rw [natDigitsAux]
    split
    · rename_i h10
      simp [valLE, digitChar_toNat h10]
    · rename_i h10
      have hm : n % 10 < 10 := Nat.mod_lt _ (by omega)
      have hd : n / 10 < fuel := by
        have : n / 10 < n :=
          Nat.div_lt_self (by omega) (show (1 : Nat) < 10 by omega)
        omega
      simp [valLE, digitChar_toNat hm, ih _ hd]
      omega

theorem valLE_natDigitsLE (n : Nat) : valLE (natDigitsLE n) = n :=
  valLE_natDigitsAux (n + 1) n (Nat.lt_succ_self n)

theorem natDigitsLE_ne_nil (n : Nat) : natDigitsLE n ≠ [] := by
  rw [natDigitsLE, natDigitsAux]
  split <;> simp

theorem natDigitsLE_injective {m n : Nat} (h : natDigitsLE m = natDigitsLE n) :
    m = n := by
  have hm := valLE_natDigitsLE m
  rw [h, valLE_natDigitsLE] at hm
  omega

theorem natRepr_injective {m n : Nat} (h : natRepr m = natRepr n) : m = n := by
  apply natDigitsLE_injective
  have : (natDigitsLE m).reverse = (natDigitsLE n).reverse := congrArg String.data h
  simpa using this

theorem natDigitsAux_all_digits :
    ∀ fuel n, ∀ c ∈ natDigitsAux fuel n, '0' ≤ c ∧ c ≤ '9' := by
  intro fuel
  induction fuel with
  | zero => intro n c hc; simp [natDigitsAux] at hc
  | succ fuel ih =>
    intro n c hc
    rw [natDigitsAux] at hc
    split at hc
    · rename_i h10
      simp at hc
      subst hc
      exact digitChar_isDigit h10
    · rename_i h10
      have hm : n % 10 < 10 := Nat.mod_lt _ (by omega)
      rcases List.mem_cons.mp hc with h1 | h1
      · subst h1; exact digitChar_isDigit hm
      · exact ih _ c h1

theorem natDigitsLE_all_digits (n : Nat) :
    ∀ c ∈ natDigitsLE n, '0' ≤ c ∧ c ≤ '9' :=
  natDigitsAux_all_digits (n + 1) n

theorem natRepr_ne_empty (n : Nat) : natRepr n ≠ "" := by
  intro h
  have : (natDigitsLE n).reverse = ([] : List Char) := congrArg String.data h
  have := natDigitsLE_ne_nil n
  simp_all

theorem natRepr_all_digits (n : Nat) :
    ∀ c ∈ (natRepr n).data, '0' ≤ c ∧ c ≤ '9' := by
  intro c hc
  have : c ∈ natDigitsLE n := by simpa [natRepr] using hc
  exact natDigitsLE_all_digits n c this

/-! ### slugify (event.model.ts lines 27-35) -/

/-- The character class `[a-z0-9\-\s]` of the slugify filter; the code
removes every character outside it. -/
def slugChar (c : Char) : Bool :=
  ('a' ≤ c && c ≤ 'z') || ('0' ≤ c && c ≤ '9') || c = '-' || isJsSpace c

/-- `replace(/p+/g, rep)` for a single-character class `p`: scan the
list, emitting `rep` at the start of each maximal run of `p`-characters
and dropping the rest of the run.  `inRun` records whether the previous
character belonged to the current run. -/
def collapseRuns (p : Char → Bool) (rep : Char) : Bool → List Char → List Char
  | _, [] => []
  | inRun, c :: cs =>
    if p c then
      (if inRun then [] else [rep]) ++ collapseRuns p rep true cs
    else c :: collapseRuns p rep false cs

/-- `replace(/\s+/g, "-")`: each maximal run of JS whitespace becomes a
single hyphen. -/
def wsRuns (cs : List Char) : List Char :=
  collapseRuns isJsSpace '-' false cs

/-- `replace(/\-+/g, "-")`: each maximal run of hyphens becomes a single
hyphen. -/
def hyRuns (cs : List Char) : List Char :=
  collapseRuns (fun c => c = '-') '-' false cs

/-- `slugify` from `event.model.ts`: trim, lowercase, strip characters
outside `[a-z0-9\-\s]`, collapse whitespace runs to single hyphens,
collapse hyphen runs to one. -/
def slugifyL (cs : List Char) : List Char :=
  hyRuns (wsRuns (((jsTrim cs).map jsToLower).filter slugChar))

def slugify (s : String) : String :=
  ⟨slugifyL s.data⟩

/-! ### Slug uniqueness loop (event.model.ts lines 135-162) -/

/-- The candidate examined at counter value `k` by the uniqueness loop:
the initial candidate `first` (the base, or the `Date.now()` fallback)
at `k = 0`, then `base-k`. -/
def slugCand (base first : String) : Nat → String
  | 0 => first
  | k + 1 => base ++ "-" ++ natRepr (k + 1)

/-- The `while (true)` body of the hook: if the candidate is used by a
different record, increment `i` and retry with `base-i`, else adopt the
candidate.  The JS loop is unbounded; fuel `used.length + 1` is shown
sufficient (`genSlug_spec`). -/
def slugLoop (used : List String) (base : String) :
    Nat → Nat → String → Option String
  | 0, _, _ => none
  | fuel + 1, i, cand =>
    if cand ∈ used then
      slugLoop used base fuel (i + 1) (base ++ "-" ++ natRepr (i + 1))
    else some cand

/-- Initial candidate: `base || Date.now()` (the empty string is falsy
in JS, so an empty base falls back to the timestamp string). -/
def firstCand (base ts : String) : String :=
  if base = "" then ts else base

/-- Slug adopted by the `pre('save')` hook when the title is modified.
`used` is the list of slugs of the other records (the lookup excludes
the saved document by `_id`); `ts` is the `Date.now()` string. -/
def genSlug (used : List String) (title ts : String) : Option String :=
  let base := slugify title
  slugLoop used base (used.length + 1) 0 (firstCand base ts)

/-- `genSlug` with the timestamp passed as a number, as `Date.now()`
returns one. -/
def genSlugN (used : List String) (title : String) (now : Nat) : Option String :=
  genSlug used title (natRepr now)

theorem slugCand_succ_data (base first : String) (k : Nat) :
    (slugCand base first (k + 1)).data =
      base.data ++ '-' :: (natDigitsLE (k + 1)).reverse := by
  show (base ++ "-" ++ natRepr (k + 1)).data = _
  rw [String.data_append, String.data_append]
  simp [natRepr]

theorem slugCand_injective (base : String) (n : Nat) :
    ∀ i j, slugCand base (firstCand base (natRepr n)) i
        = slugCand base (firstCand base (natRepr n)) j → i = j := by
  have hsucc_ne_zero : ∀ j, slugCand base (firstCand base (natRepr n)) 0
      ≠ slugCand base (firstCand base (natRepr n)) (j + 1) := by
    intro j heq
    have hdata := congrArg String.data heq
    rw [slugCand_succ_data] at hdata
    by_cases hb : base = ""
    · -- the initial candidate is the timestamp string, all digits,
      -- while `base-j-1` starts with a hyphen
      have h0 : (slugCand base (firstCand base (natRepr n)) 0).data
          = (natDigitsLE n).reverse := by
        simp [slugCand, firstCand, hb, natRepr]
      rw [h0, hb] at hdata
      have hmem : '-' ∈ (natDigitsLE n).reverse := by
        rw [hdata]; simp
      have := natDigitsLE_all_digits n '-' (List.mem_reverse.mp hmem)
      exact absurd this.1 (by decide)
    · -- the initial candidate is `base` itself, strictly shorter
      have h0 : (slugCand base (firstCand base (natRepr n)) 0).data
          = base.data := by
        simp [slugCand, firstCand, hb]
      rw [h0] at hdata
      have hlen := congrArg List.length hdata
      rw [List.length_append, List.length_cons, List.length_reverse] at hlen
      have hne := natDigitsLE_ne_nil (j + 1)
      have hpos : 0 < (natDigitsLE (j + 1)).length := List.length_pos.mpr hne
      omega
  intro i j heq
  match i, j with
  | 0, 0 => rfl
  | 0, j + 1 => exact absurd heq (hsucc_ne_zero j)
  | i + 1, 0 => exact absurd heq.symm (hsucc_ne_zero i)
  | i + 1, j + 1 =>
    have hdata := congrArg String.data heq
    rw [slugCand_succ_data, slugCand_succ_data] at hdata
    have h1 := List.append_cancel_left hdata
    have h2 : (natDigitsLE (i + 1)).reverse = (natDigitsLE (j + 1)).reverse :=
      List.tail_eq_of_cons_eq h1
    have h3 : natDigitsLE (i + 1) = natDigitsLE (j + 1) :=
      List.reverse_injective h2
    have := natDigitsLE_injective h3
    omega

theorem exists_free_cand (used : List String) (f : Nat → String)
    (hinj : ∀ i j, f i = f j → i = j) :
    ∃ k, k ≤ used.length ∧ f k ∉ used := by
  by_contra h
  push_neg at h
  have hsub : ((List.range (used.length + 1)).map f) ⊆ used := by
    intro x hx
    simp only [List.mem_map, List.mem_range] at hx
    obtain ⟨k, hk, rfl⟩ := hx
    exact h k (by omega)
  have hnd : ((List.range (used.length + 1)).map f).Nodup :=
    (List.nodup_range _).map_on (fun i _ j _ hij => hinj i j hij)
  have h1 : ((List.range (used.length + 1)).map f).toFinset.card
      = used.length + 1 := by
    rw [List.toFinset_card_of_nodup hnd]; simp
  have h2 : ((List.range (used.length + 1)).map f).toFinset ⊆ used.toFinset := by
    intro x hx
    rw [List.mem_toFinset] at hx ⊢
    exact hsub hx
  have h3 := Finset.card_le_card h2
  have h4 := List.toFinset_card_le (l := used)
  omega

theorem slugLoop_eq_of_found (used : List String) (base first : String)
    (k : Nat) :
    ∀ fuel i, i ≤ k → k < i + fuel →
      (∀ j, i ≤ j → j < k → slugCand base first j ∈ used) →
      slugCand base first k ∉ used →
      slugLoop used base fuel i (slugCand base first i)
        = some (slugCand base first k) := by
  intro fuel
  induction fuel with
  | zero => intro i h1 h2 _ _; omega
  | succ fuel ih =>
    intro i h1 h2 hall hfree
    rw [slugLoop]
    by_cases hmem : slugCand base first i ∈ used
    · rw [if_pos hmem]
      have hik : i < k := by
        rcases Nat.lt_or_ge i k with h | h
        · exact h
        · have : i = k := by omega
          subst this
          exact absurd hmem hfree
      have hcand : (base ++ "-" ++ natRepr (i + 1))
          = slugCand base first (i + 1) := rfl
      rw [hcand]
      exact ih (i + 1) (by omega) (by omega)
        (fun j hj1 hj2 => hall j (by omega) hj2) hfree
    · rw [if_neg hmem]
      have : i = k := by
        by_contra hne
        have hik : i < k := by omega
        exact hmem (hall i (Nat.le_refl i) hik)
      subst this
      rfl

/-- Full characterization of the slug adopted by the uniqueness loop:
it terminates within fuel `used.length + 1`, and adopts the first
candidate in the sequence `first, base-1, base-2, …` that is not used by
a different record. -/
theorem genSlug_spec (used : List String) (title : String) (now : Nat) :
    ∃ k, k ≤ used.length ∧
      genSlugN used title now
        = some (slugCand (slugify title)
            (firstCand (slugify title) (natRepr now)) k) ∧
      slugCand (slugify title) (firstCand (slugify title) (natRepr now)) k
        ∉ used ∧
      ∀ j < k,
        slugCand (slugify title) (firstCand (slugify title) (natRepr now)) j
          ∈ used := by
  obtain ⟨k0, hk0, hfree0⟩ :=
    exists_free_cand used
      (slugCand (slugify title) (firstCand (slugify title) (natRepr now)))
      (slugCand_injective (slugify title) now)
  have hex : ∃ k,
      slugCand (slugify title) (firstCand (slugify title) (natRepr now)) k
        ∉ used := ⟨k0, hfree0⟩
  refine ⟨Nat.find hex, ?_, ?_, Nat.find_spec hex, ?_⟩
  · exact Nat.le_trans (Nat.find_min' hex hfree0) hk0
  · show slugLoop used (slugify title) (used.length + 1) 0
        (firstCand (slugify title) (natRepr now)) = _
    exact slugLoop_eq_of_found used (slugify title)
      (firstCand (slugify title) (natRepr now)) (Nat.find hex)
      (used.length + 1) 0 (Nat.zero_le _)
      (by have := Nat.le_trans (Nat.find_min' hex hfree0) hk0; omega)
      (fun j _ hj => by simpa using Nat.find_min hex hj)
      (Nat.find_spec hex)
  · intro j hj
    have := Nat.find_min hex hj
    simpa using this

/-! ### Character-set facts about slugify output -/

/-- Characters a stored slug may contain: lowercase ASCII letters,
digits, hyphens. -/
def slugOutChar (c : Char) : Bool :=
  ('a' ≤ c && c ≤ 'z') || ('0' ≤ c && c ≤ '9') || c = '-'

theorem collapseRuns_chars (p : Char → Bool) (rep : Char) :
    ∀ l b, ∀ c ∈ collapseRuns p rep b l, c = rep ∨ (c ∈ l ∧ p c = false) := by
  intro l
  induction l with
  | nil => intro b c hc; simp [collapseRuns] at hc
  | cons x xs ih =>
    intro b c hc
    rw [collapseRuns] at hc
    split at hc
    · rcases List.mem_append.mp hc with h | h
      · left
        rcases Bool.eq_false_or_eq_true b with hb | hb
        · subst hb; simp at h
        · subst hb; simp at h; exact h
      · rcases ih true c h with h' | h'
        · exact Or.inl h'
        · exact Or.inr ⟨List.mem_cons_of_mem _ h'.1, h'.2⟩
    · rename_i hx
      rcases List.mem_cons.mp hc with h | h
      · subst h
        exact Or.inr ⟨List.mem_cons_self _ _, by simpa using hx⟩
      · rcases ih false c h with h' | h'
        · exact Or.inl h'
        · exact Or.inr ⟨List.mem_cons_of_mem _ h'.1, h'.2⟩

theorem hyRuns_chars : ∀ l, ∀ c ∈ hyRuns l, c = '-' ∨ c ∈ l := by
  intro l c hc
  rcases collapseRuns_chars _ '-' l false c hc with h | h
  · exact Or.inl h
  · exact Or.inr h.1

theorem wsRuns_chars :
    ∀ l, ∀ c ∈ wsRuns l, c = '-' ∨ (c ∈ l ∧ isJsSpace c = false) :=
  fun l => collapseRuns_chars isJsSpace '-' l false

theorem slugify_chars (s : String) :
    ∀ c ∈ (slugify s).data, slugOutChar c = true := by
  intro c hc
  have hc' : c ∈ slugifyL s.data := hc
  rcases hyRuns_chars _ c hc' with h | h
  · simp [slugOutChar, h]
  · rcases wsRuns_chars _ c h with h' | h'
    · simp [slugOutChar, h']
    · have hmem := List.mem_filter.mp h'.1
      have hclass : slugChar c = true := hmem.2
      have hns : isJsSpace c = false := h'.2
      simp only [slugChar, hns, Bool.or_false] at hclass
      simpa only [slugOutChar] using hclass

theorem jsTrim_subset (cs : List Char) : jsTrim cs ⊆ cs := by
  intro c hc
  have h1 : c ∈ (cs.dropWhile isJsSpace).reverse.dropWhile isJsSpace := by
    simpa [jsTrim] using hc
  have h2 := (List.dropWhile_sublist isJsSpace).subset h1
  have h3 : c ∈ cs.dropWhile isJsSpace := List.mem_reverse.mp h2
  exact (List.dropWhile_sublist isJsSpace).subset h3

/-- When every character of the title is outside the class
`[a-z0-9\-\s]` even after lowercasing, the normalized base is empty. -/
theorem slugify_eq_empty (s : String)
    (hall : s.data.all (fun c => !slugChar (jsToLower c)) = true) :
    slugify s = "" := by
  have hfilter : ((jsTrim s.data).map jsToLower).filter slugChar = [] := by
    rw [List.filter_eq_nil_iff]
    intro x hx
    obtain ⟨c, hc, rfl⟩ := List.mem_map.mp hx
    have := List.all_eq_true.mp hall c (jsTrim_subset _ hc)
    simpa using this
  show (⟨slugifyL s.data⟩ : String) = ""
  rw [slugifyL, hfilter]
  rfl

theorem slugOutChar_of_digit {c : Char} (h : '0' ≤ c ∧ c ≤ '9') :
    slugOutChar c = true := by
  simp only [slugOutChar, Bool.or_eq_true, Bool.and_eq_true, decide_eq_true_eq]
  exact Or.inl (Or.inr ⟨h.1, h.2⟩)

theorem append_hyphen_one (s : String) : s ++ "-" ++ natRepr 1 = s ++ "-1" := by
  rw [String.append_assoc]
  rfl

theorem append_hyphen_one_ne (s : String) : s ++ "-1" ≠ s := by
  intro h
  have hlen := congrArg (fun t => t.data.length) h
  simp [String.data_append] at hlen

/-! ### Claim theorems on the slug routine -/

/-- C1: for a title with non-empty normalized base, two saves with
identical titles adopt `base` and then `base-1` (distinct); in general
the loop starts at counter 0 and adopts the first candidate in the
sequence `base, base-1, base-2, …` not used by a different record
(`used2` ranges over arbitrary states of the identity-excluded lookup). -/
theorem claim1_slug_uniqueness (title : String) (used used2 : List String)
    (now : Nat)
    (hbase : slugify title ≠ "")
    (h1 : slugify title ∉ used)
    (h2 : slugify title ++ "-1" ∉ used) :
    genSlugN used title now = some (slugify title) ∧
    genSlugN (slugify title :: used) title now
      = some (slugify title ++ "-1") ∧
    slugify title ≠ slugify title ++ "-1" ∧
    ∃ k, genSlugN used2 title now
        = some (slugCand (slugify title)
            (firstCand (slugify title) (natRepr now)) k) ∧
      slugCand (slugify title) (firstCand (slugify title) (natRepr now)) k
        ∉ used2 ∧
      ∀ j < k,
        slugCand (slugify title) (firstCand (slugify title) (natRepr now)) j
          ∈ used2 := by
  have hfc : firstCand (slugify title) (natRepr now) = slugify title := by
    simp [firstCand, hbase]
  refine ⟨?_, ?_, ?_, ?_⟩
  · show slugLoop used (slugify title) (used.length + 1) 0
        (firstCand (slugify title) (natRepr now)) = some (slugify title)
    rw [hfc, slugLoop, if_neg h1]
  · show slugLoop (slugify title :: used) (slugify title)
        ((slugify title :: used).length + 1) 0
        (firstCand (slugify title) (natRepr now)) = _
    rw [hfc]
    simp only [List.length_cons]
    rw [slugLoop, if_pos (List.mem_cons_self _ _), append_hyphen_one, slugLoop]
    rw [if_neg]
    intro hmem
    rcases List.mem_cons.mp hmem with h | h
    · exact append_hyphen_one_ne _ h
    · exact h2 h
  · intro h
    exact append_hyphen_one_ne _ h.symm
  · obtain ⟨k, _, heq, hfree, hmin⟩ := genSlug_spec used2 title now
    exact ⟨k, heq, hfree, hmin⟩

theorem claim1_slug_uniqueness_witness :
    genSlugN [] "ab" 0 = some (slugify "ab") ∧
    genSlugN (slugify "ab" :: []) "ab" 0 = some (slugify "ab" ++ "-1") ∧
    slugify "ab" ≠ slugify "ab" ++ "-1" ∧
    ∃ k, genSlugN ["zz"] "ab" 0
        = some (slugCand (slugify "ab")
            (firstCand (slugify "ab") (natRepr 0)) k) ∧
      slugCand (slugify "ab") (firstCand (slugify "ab") (natRepr 0)) k
        ∉ ["zz"] ∧
      ∀ j < k,
        slugCand (slugify "ab") (firstCand (slugify "ab") (natRepr 0)) j
          ∈ ["zz"] :=
  claim1_slug_uniqueness "ab" [] ["zz"] 0 (by decide) (by decide) (by decide)

/-- C2 (amended): every slug adopted at save time consists only of
lowercase ASCII letters, digits, and hyphens (in particular it contains
no uppercase letters).  The original claim's "no leading or trailing
hyphens, no consecutive hyphens" fails: see
`claim2_slug_charset_counterexample`. -/
theorem claim2_slug_charset (title : String) (used : List String) (now : Nat)
    (s : String) (h : genSlugN used title now = some s) :
    s.data.all slugOutChar = true := by
  obtain ⟨k, _, heq, _, _⟩ := genSlug_spec used title now
  rw [h] at heq
  have hs : s = slugCand (slugify title)
      (firstCand (slugify title) (natRepr now)) k :=
    Option.some.inj heq
  subst hs
  rw [List.all_eq_true]
  cases k with
  | zero =>
    intro c hc
    by_cases hb : slugify title = ""
    · have hfc : slugCand (slugify title)
          (firstCand (slugify title) (natRepr now)) 0 = natRepr now := by
        simp [slugCand, firstCand, hb]
      rw [hfc] at hc
      exact slugOutChar_of_digit (natRepr_all_digits now c hc)
    · have hfc : slugCand (slugify title)
          (firstCand (slugify title) (natRepr now)) 0 = slugify title := by
        simp [slugCand, firstCand, hb]
      rw [hfc] at hc
      exact slugify_chars title c hc
  | succ k =>
    intro c hc
    rw [slugCand_succ_data] at hc
    rcases List.mem_append.mp hc with h1 | h1
    · exact slugify_chars title c h1
    · rcases List.mem_cons.mp h1 with h2 | h2
      · subst h2; decide
      · exact slugOutChar_of_digit
          (natDigitsLE_all_digits _ c (List.mem_reverse.mp h2))

theorem claim2_slug_charset_witness :
    ("-x" : String).data.all slugOutChar = true :=
  claim2_slug_charset "-x" [] 0 "-x" (by decide)

/-- C2 counterexample: adopted slugs can carry a leading hyphen
(title `"-x"`), a trailing hyphen (title `"x-"`), and consecutive
hyphens (second save of title `"x-"`, where the counter suffix is
appended to a hyphen-final base), refuting the claim as stated. -/
theorem claim2_slug_charset_counterexample :
    genSlugN [] "-x" 0 = some "-x" ∧
    ("-x" : String).data = ['-', 'x'] ∧
    genSlugN [] "x-" 0 = some "x-" ∧
    ("x-" : String).data = ['x', '-'] ∧
    genSlugN ["x-"] "x-" 0 = some "x--1" ∧
    ("x--1" : String).data = ['x', '-', '-', '1'] := by
  decide

/-- C9 (amended): when every character of the title is outside
`[a-z0-9\-\s]` even after lowercasing, the normalized base is empty and
the save adopts a non-empty slug — the timestamp string itself whenever
no other record already uses it.  The original claim's premise (taken
before lowercasing) and its unconditional "timestamp-derived" conclusion
fail: see `claim9_empty_base_counterexample`. -/
theorem claim9_empty_base_placeholder (title : String) (used : List String)
    (now : Nat)
    (hall : title.data.all (fun c => !slugChar (jsToLower c)) = true) :
    ∃ s, genSlugN used title now = some s ∧ s ≠ "" ∧
      (natRepr now ∉ used → s = natRepr now) := by
  have hb : slugify title = "" := slugify_eq_empty title hall
  obtain ⟨k, _, heq, hfree, hmin⟩ := genSlug_spec used title now
  have hfc : firstCand (slugify title) (natRepr now) = natRepr now := by
    simp [firstCand, hb]
  refine ⟨_, heq, ?_, ?_⟩
  · cases k with
    | zero =>
      show slugCand _ _ 0 ≠ ""
      simp only [slugCand, hfc]
      exact natRepr_ne_empty now
    | succ k =>
      intro h
      have hdata := congrArg String.data h
      rw [slugCand_succ_data] at hdata
      simp at hdata
  · intro hts
    cases k with
    | zero => simp [slugCand, hfc]
    | succ k =>
      exact absurd (by simpa [slugCand, hfc] using hmin 0 (Nat.succ_pos k)) hts

theorem claim9_empty_base_placeholder_witness :
    ∃ s, genSlugN [] "!" 7 = some s ∧ s ≠ "" ∧
      (natRepr 7 ∉ ([] : List String) → s = natRepr 7) :=
  claim9_empty_base_placeholder "!" [] 7 (by decide)

/-- C9 counterexample: the title `"A"` consists only of characters
outside `[a-z0-9\-\s]`, yet its normalized base is `"a"` (lowercasing
happens before the filter), the adopted slug is `"a"`, and it is not the
timestamp string; and for the all-punctuation title `"!"`, when the
timestamp string is already used by another record the adopted slug is
`"-1"`, which is not timestamp-derived either. -/
theorem claim9_empty_base_counterexample :
    ("A" : String).data.all (fun c => !slugChar c) = true ∧
    slugify "A" = "a" ∧
    genSlugN [] "A" 5 = some "a" ∧
    ("a" : String) ≠ natRepr 5 ∧
    ("!" : String).data.all (fun c => !slugChar c) = true ∧
    genSlugN [natRepr 5] "!" 5 = some "-1" ∧
    ("-1" : String) ≠ natRepr 5 := by
  decide

/-! ### Time normalization (event.model.ts lines 175-211) -/

/-- The regex class `\d`. -/
def isDigitCh (c : Char) : Bool :=
  48 ≤ c.toNat && c.toNat ≤ 57

/-- Numeric value of a digit character. -/
def digitVal (c : Char) : Nat :=
  c.toNat - 48

/-- Value of a big-endian digit string, as JS `Number(...)` computes it
for the digit groups captured by the time regex. -/
def digitsVal (ds : List Char) : Nat :=
  ds.foldl (fun acc c => 10 * acc + digitVal c) 0

/-- The `(AM|PM)?$` part of the time regex (case-insensitive): empty
remainder means no meridiem, exactly `AM`/`PM` (any case) yields one,
anything else fails the whole match.  `false` is AM, `true` is PM. -/
def parseMeridiem (cs : List Char) : Option (Option Bool) :=
  match cs with
  | [] => some none
  | [a, m] =>
    if (a = 'A' || a = 'a') && (m = 'M' || m = 'm') then some (some false)
    else if (a = 'P' || a = 'p') && (m = 'M' || m = 'm') then some (some true)
    else none
  | _ => none

/-- The `\s*(AM|PM)?$` tail of the time regex.  The greedy `\s*` is
safe: no whitespace character can begin `AM`/`PM`. -/
def parseTail (cs : List Char) : Option (Option Bool) :=
  parseMeridiem (cs.dropWhile isJsSpace)

/-- Continuation of the time regex after the hour digits `ds`: the
optional `(?:[:\.](\d{2}))?` group followed by the tail.  When a
separator is present but not followed by two digits the whole match
fails, exactly as in the regex (skipping the group cannot help, since
the tail can never start with `:` or `.`). -/
def matchAfterDigits (ds rest : List Char) :
    Option (List Char × Option (List Char) × Option Bool) :=
  match rest with
  | sep :: r3 =>
    if sep = ':' || sep = '.' then
      match r3 with
      | d1 :: d2 :: r4 =>
        if isDigitCh d1 && isDigitCh d2 then
          (parseTail r4).map (fun mer => (ds, some [d1, d2], mer))
        else none
      | _ => none
    else (parseTail rest).map (fun mer => (ds, none, mer))
  | [] => some (ds, none, none)

/-- The full regex `^(\d{1,2})(?:[:\.](\d{2}))?(?:\s*(AM|PM))?$/i` as a
deterministic matcher.  The greedy two-digit hour needs no backtracking:
when two digits are available, retrying with one digit leaves a
remainder starting with a digit, which nothing in the rest of the
pattern can match. -/
def matchTime (cs : List Char) :
    Option (List Char × Option (List Char) × Option Bool) :=
  match cs with
  | [] => none
  | c1 :: rest =>
    if isDigitCh c1 then
      match rest with
      | c2 :: r2 =>
        if isDigitCh c2 then matchAfterDigits [c1, c2] r2
        else matchAfterDigits [c1] rest
      | [] => matchAfterDigits [c1] []
    else none

/-- The hook's 12-hour adjustment: `PM` adds 12 to hours below 12, `AM`
maps hour 12 to 0. -/
def applyMeridiem (mer : Option Bool) (hours : Nat) : Nat :=
  match mer with
  | some true => if hours < 12 then hours + 12 else hours
  | some false => if hours = 12 then 0 else hours
  | none => hours

/-- `String(n).padStart(2, "0")`. -/
def padStart2 (s : String) : String :=
  if s.length < 2 then ⟨List.replicate (2 - s.length) '0' ++ s.data⟩ else s

/-- `pre('save')` time normalization: trim the input, match the time
regex, take the captured minutes (0 when the group is absent), apply the
meridiem adjustment, reject hours above 23 or minutes above 59 (the
captured numbers are never negative), and render zero-padded `HH:MM`.
`none` models the thrown "Invalid time format" validation error. -/
def normalizeTime (s : String) : Option String :=
  match matchTime (jsTrim s.data) with
  | none => none
  | some (ds, mins, mer) =>
    let hours := applyMeridiem mer (digitsVal ds)
    let minutes := match mins with
      | some mm => digitsVal mm
      | none => 0
    if hours ≤ 23 && minutes ≤ 59 then
      some (padStart2 (natRepr hours) ++ ":" ++ padStart2 (natRepr minutes))
    else none

/-! ### The spec's accepted time shapes, for comparison with the code

The spec/claim lists the accepted shapes as `H`, `HH`, `H:MM`, `HH:MM`,
`H.MM`, optionally suffixed with `AM`/`PM` (case-insensitive).  Each
shape below consumes its characters from the front and returns the hour
digits and optional minute digits together with the remainder, which
must then be an `AM`/`PM` suffix (with optional whitespace before it,
as in the spec's own example `"9:30 AM"`). -/

/-- Shape `H`: a single hour digit. -/
def shapeH : List Char → Option ((List Char × Option (List Char)) × List Char)
  | c :: rest => if isDigitCh c then some (([c], none), rest) else none
  | [] => none

/-- Shape `HH`: two hour digits. -/
def shapeHH : List Char → Option ((List Char × Option (List Char)) × List Char)
  | a :: b :: rest =>
    if isDigitCh a && isDigitCh b then some (([a, b], none), rest) else none
  | _ => none

/-- Shapes `H:MM` / `H.MM`: one hour digit, the given separator, two
minute digits. -/
def shapeHsepMM (sep : Char) :
    List Char → Option ((List Char × Option (List Char)) × List Char)
  | a :: s :: m1 :: m2 :: rest =>
    if isDigitCh a && s = sep && isDigitCh m1 && isDigitCh m2 then
      some (([a], some [m1, m2]), rest)
    else none
  | _ => none

/-- Shapes `HH:MM` / `HH.MM`: two hour digits, the given separator, two
minute digits. -/
def shapeHHsepMM (sep : Char) :
    List Char → Option ((List Char × Option (List Char)) × List Char)
  | a :: b :: s :: m1 :: m2 :: rest =>
    if isDigitCh a && isDigitCh b && s = sep && isDigitCh m1 && isDigitCh m2 then
      some (([a, b], some [m1, m2]), rest)
    else none
  | _ => none

/-- Try one shape and require the remainder to be an optional
`AM`/`PM` suffix. -/
def tryShape
    (f : List Char → Option ((List Char × Option (List Char)) × List Char))
    (cs : List Char) : Option (List Char × Option (List Char) × Option Bool) :=
  (f cs).bind fun hm => (parseTail hm.2).map fun mer => (hm.1.1, hm.1.2, mer)

/-- The shape list exactly as the claim states it:
`H`, `HH`, `H:MM`, `HH:MM`, `H.MM`. -/
def claimShapesLiteral (cs : List Char) :
    Option (List Char × Option (List Char) × Option Bool) :=
  tryShape shapeH cs <|> tryShape shapeHH cs <|>
  tryShape (shapeHsepMM ':') cs <|> tryShape (shapeHHsepMM ':') cs <|>
  tryShape (shapeHsepMM '.') cs

/-- The amended shape list: the code also accepts `HH.MM`. -/
def claimShapesAmended (cs : List Char) :
    Option (List Char × Option (List Char) × Option Bool) :=
  tryShape shapeH cs <|> tryShape shapeHH cs <|>
  tryShape (shapeHsepMM ':') cs <|> tryShape (shapeHHsepMM ':') cs <|>
  tryShape (shapeHsepMM '.') cs <|> tryShape (shapeHHsepMM '.') cs

/-- The claim's normalization pipeline over a given shape list: trim,
match a shape, take minutes 0 when absent, convert
12-hour-with-meridiem to 24-hour, reject out-of-range values, store
zero-padded `HH:MM`. -/
def claimTimePipeline
    (core : List Char → Option (List Char × Option (List Char) × Option Bool))
    (s : String) : Option String :=
  match core (jsTrim s.data) with
  | none => none
  | some (ds, mins, mer) =>
    let hours := applyMeridiem mer (digitsVal ds)
    let minutes := match mins with
      | some mm => digitsVal mm
      | none => 0
    if hours ≤ 23 && minutes ≤ 59 then
      some (padStart2 (natRepr hours) ++ ":" ++ padStart2 (natRepr minutes))
    else none

/-- C3's accepted-shape normalization, shapes exactly as the claim lists
them. -/
def claimNormalizeTimeLiteral (s : String) : Option String :=
  claimTimePipeline claimShapesLiteral s

/-- C3's accepted-shape normalization with the amended shape list. -/
def claimNormalizeTimeAmended (s : String) : Option String :=
  claimTimePipeline claimShapesAmended s

/-! ### Equivalence of the code's regex with the (amended) shape list -/

theorem isDigitCh_facts {c : Char} (h : isDigitCh c = true) :
    48 ≤ c.toNat ∧ c.toNat ≤ 57 := by
  simpa [isDigitCh, Bool.and_eq_true, decide_eq_true_eq] using h

theorem isJsSpace_eq_false_of_digit {c : Char} (h : isDigitCh c = true) :
    isJsSpace c = false := by
  obtain ⟨h1, h2⟩ := isDigitCh_facts h
  have hsp : c ≠ ' ' := by intro he; subst he; exact absurd h (by decide)
  have hht : c ≠ '\t' := by intro he; subst he; exact absurd h (by decide)
  have hnl : c ≠ '\n' := by intro he; subst he; exact absurd h (by decide)
  have hcr : c ≠ '\r' := by intro he; subst he; exact absurd h (by decide)
  simp only [isJsSpace, hsp, hht, hnl, hcr, decide_eq_true_eq,
    Bool.or_eq_false_iff, Bool.and_eq_false_iff, decide_eq_false_iff_not,
    not_false_iff, true_and]
  omega

theorem digit_ne {c : Char} (h : isDigitCh c = true) :
    c ≠ ':' ∧ c ≠ '.' ∧ c ≠ 'A' ∧ c ≠ 'a' ∧ c ≠ 'P' ∧ c ≠ 'p' := by
  refine ⟨?_, ?_, ?_, ?_, ?_, ?_⟩ <;>
    (intro he; subst he; exact absurd h (by decide))

theorem parseMeridiem_cons_none {x : Char} (hA : x ≠ 'A') (ha : x ≠ 'a')
    (hP : x ≠ 'P') (hp : x ≠ 'p') :
    ∀ xs, parseMeridiem (x :: xs) = none := by
  intro xs
  cases xs with
  | nil => rfl
  | cons m ms =>
    cases ms with
    | nil => simp [parseMeridiem, hA, ha, hP, hp]
    | cons m2 rest => rfl

theorem parseTail_cons_none {x : Char} (hsp : isJsSpace x = false)
    (hA : x ≠ 'A') (ha : x ≠ 'a') (hP : x ≠ 'P') (hp : x ≠ 'p') :
    ∀ xs, parseTail (x :: xs) = none := by
  intro xs
  rw [parseTail, List.dropWhile_cons, hsp]
  exact parseMeridiem_cons_none hA ha hP hp xs

theorem parseTail_digit_none {d : Char} (hd : isDigitCh d = true)
    (xs : List Char) : parseTail (d :: xs) = none := by
  obtain ⟨_, _, hA, ha, hP, hp⟩ := digit_ne hd
  exact parseTail_cons_none (isJsSpace_eq_false_of_digit hd) hA ha hP hp xs

theorem parseTail_colon_none (xs : List Char) : parseTail (':' :: xs) = none :=
  parseTail_cons_none (by decide) (by decide) (by decide) (by decide)
    (by decide) xs

theorem parseTail_dot_none (xs : List Char) : parseTail ('.' :: xs) = none :=
  parseTail_cons_none (by decide) (by decide) (by decide) (by decide)
    (by decide) xs

theorem shapeHH_none_head {a : Char} (h : isDigitCh a = false) (bs : List Char) :
    shapeHH (a :: bs) = none := by
  cases bs with
  | nil => rfl
  | cons b bs2 => simp [shapeHH, h]

theorem shapeHsepMM_none_head (sep : Char) {a : Char}
    (h : isDigitCh a = false) (bs : List Char) :
    shapeHsepMM sep (a :: bs) = none := by
  cases bs with
  | nil => rfl
  | cons s bs2 =>
    cases bs2 with
    | nil => rfl
    | cons m1 bs3 =>
      cases bs3 with
      | nil => rfl
      | cons m2 bs4 => simp [shapeHsepMM, h]

theorem shapeHsepMM_none_second (sep : Char) {a s : Char} (h : s ≠ sep)
    (bs : List Char) : shapeHsepMM sep (a :: s :: bs) = none := by
  cases bs with
  | nil => rfl
  | cons m1 bs3 =>
    cases bs3 with
    | nil => rfl
    | cons m2 bs4 => simp [shapeHsepMM, h]

theorem shapeHHsepMM_none_head (sep : Char) {a : Char}
    (h : isDigitCh a = false) (bs : List Char) :
    shapeHHsepMM sep (a :: bs) = none := by
  cases bs with
  | nil => rfl
  | cons b bs2 =>
    cases bs2 with
    | nil => rfl
    | cons s bs3 =>
      cases bs3 with
      | nil => rfl
      | cons m1 bs4 =>
        cases bs4 with
        | nil => rfl
        | cons m2 bs5 => simp [shapeHHsepMM, h]

theorem shapeHHsepMM_none_second (sep : Char) {a b : Char}
    (h : isDigitCh b = false) (bs : List Char) :
    shapeHHsepMM sep (a :: b :: bs) = none := by
  cases bs with
  | nil => rfl
  | cons s bs3 =>
    cases bs3 with
    | nil => rfl
    | cons m1 bs4 =>
      cases bs4 with
      | nil => rfl
      | cons m2 bs5 => simp [shapeHHsepMM, h]

theorem shapeHHsepMM_none_third (sep : Char) {a b s : Char} (h : s ≠ sep)
    (bs : List Char) : shapeHHsepMM sep (a :: b :: s :: bs) = none := by
  cases bs with
  | nil => rfl
  | cons m1 bs4 =>
    cases bs4 with
    | nil => rfl
    | cons m2 bs5 => simp [shapeHHsepMM, h]

theorem parseTail_nil : parseTail [] = some none := rfl

theorem claimShapesAmended_eq_matchTime :
    ∀ cs, claimShapesAmended cs = matchTime cs := by
  intro cs
  rcases cs with _ | ⟨c1, rest⟩
  · rfl
  by_cases h1 : isDigitCh c1 = true
  · rcases rest with _ | ⟨c2, r2⟩
    · simp [claimShapesAmended, matchTime, matchAfterDigits, tryShape,
        shapeH, shapeHH, shapeHsepMM, shapeHHsepMM, parseTail, parseMeridiem, h1]
    by_cases h2 : isDigitCh c2 = true
    · -- two-digit hour
      obtain ⟨hc2colon, hc2dot, _, _, _, _⟩ := digit_ne h2
      rcases r2 with _ | ⟨x, r3⟩
      · simp [claimShapesAmended, matchTime, matchAfterDigits, tryShape,
          shapeH, shapeHH, shapeHsepMM, shapeHHsepMM, h1, h2,
          parseTail_digit_none h2, parseTail_nil]
      by_cases hxc : x = ':'
      · subst hxc
        rcases r3 with _ | ⟨d1, _ | ⟨d2, r4⟩⟩
        · simp [claimShapesAmended, matchTime, matchAfterDigits, tryShape,
            shapeH, shapeHH, shapeHHsepMM, h1, h2,
            parseTail_digit_none h2, parseTail_colon_none,
            shapeHsepMM_none_second ':' hc2colon,
            shapeHsepMM_none_second '.' hc2dot]
        · simp [claimShapesAmended, matchTime, matchAfterDigits, tryShape,
            shapeH, shapeHH, shapeHHsepMM, h1, h2,
            parseTail_digit_none h2, parseTail_colon_none,
            shapeHsepMM_none_second ':' hc2colon,
            shapeHsepMM_none_second '.' hc2dot]
        · simp only [claimShapesAmended, matchTime, matchAfterDigits, tryShape,
            shapeH, shapeHH, shapeHHsepMM, h1, h2,
            parseTail_digit_none h2, parseTail_colon_none]
          simp [shapeHsepMM_none_second ':' hc2colon,
            shapeHsepMM_none_second '.' hc2dot, h1, h2]
          split <;> simp [parseTail_digit_none h2, parseTail_colon_none]
      by_cases hxd : x = '.'
      · subst hxd
        rcases r3 with _ | ⟨d1, _ | ⟨d2, r4⟩⟩
        · simp [claimShapesAmended, matchTime, matchAfterDigits, tryShape,
            shapeH, shapeHH, shapeHHsepMM, h1, h2,
            parseTail_digit_none h2, parseTail_dot_none,
            shapeHsepMM_none_second ':' hc2colon,
            shapeHsepMM_none_second '.' hc2dot]
        · simp [claimShapesAmended, matchTime, matchAfterDigits, tryShape,
            shapeH, shapeHH, shapeHHsepMM, h1, h2,
            parseTail_digit_none h2, parseTail_dot_none,
            shapeHsepMM_none_second ':' hc2colon,
            shapeHsepMM_none_second '.' hc2dot]
        · simp only [claimShapesAmended, matchTime, matchAfterDigits, tryShape,
            shapeH, shapeHH, shapeHHsepMM, h1, h2,
            parseTail_digit_none h2, parseTail_dot_none]
          simp [shapeHsepMM_none_second ':' hc2colon,
            shapeHsepMM_none_second '.' hc2dot, h1, h2]
          split <;> simp [parseTail_digit_none h2, parseTail_dot_none]
      · -- x is neither ':' nor '.'
        simp [claimShapesAmended, matchTime, matchAfterDigits, tryShape,
          shapeH, shapeHH, h1, h2, hxc, hxd,
          parseTail_digit_none h2,
          shapeHsepMM_none_second ':' hc2colon,
          shapeHsepMM_none_second '.' hc2dot,
          shapeHHsepMM_none_third ':' hxc,
          shapeHHsepMM_none_third '.' hxd]
    · -- one-digit hour
      have hb2 : isDigitCh c2 = false := by simpa using h2
      by_cases hxc : c2 = ':'
      · subst hxc
        rcases r2 with _ | ⟨d1, _ | ⟨d2, r4⟩⟩
        · simp [claimShapesAmended, matchTime, matchAfterDigits, tryShape,
            shapeH, shapeHH, shapeHsepMM, shapeHHsepMM, h1, hb2,
            parseTail_colon_none]
        · simp [claimShapesAmended, matchTime, matchAfterDigits, tryShape,
            shapeH, shapeHH, shapeHsepMM, shapeHHsepMM, h1, hb2,
            parseTail_colon_none]
        · simp [claimShapesAmended, matchTime, matchAfterDigits, tryShape,
            shapeH, shapeHH, shapeHsepMM, h1, hb2,
            parseTail_colon_none,
            shapeHHsepMM_none_second ':' hb2,
            shapeHHsepMM_none_second '.' hb2]
          split <;> simp
      by_cases hxd : c2 = '.'
      · subst hxd
        rcases r2 with _ | ⟨d1, _ | ⟨d2, r4⟩⟩
        · simp [claimShapesAmended, matchTime, matchAfterDigits, tryShape,
            shapeH, shapeHH, shapeHsepMM, shapeHHsepMM, h1, hb2,
            parseTail_dot_none]
        · simp [claimShapesAmended, matchTime, matchAfterDigits, tryShape,
            shapeH, shapeHH, shapeHsepMM, shapeHHsepMM, h1, hb2,
            parseTail_dot_none]
        · simp [claimShapesAmended, matchTime, matchAfterDigits, tryShape,
            shapeH, shapeHH, shapeHsepMM, h1, hb2,
            parseTail_dot_none,
            shapeHHsepMM_none_second ':' hb2,
            shapeHHsepMM_none_second '.' hb2]
          split <;> simp
      · -- c2 is neither a digit nor a separator
        simp [claimShapesAmended, matchTime, matchAfterDigits, tryShape,
          shapeH, shapeHH, h1, hb2, hxc, hxd,
          shapeHsepMM_none_second ':' hxc,
          shapeHsepMM_none_second '.' hxd,
          shapeHHsepMM_none_second ':' hb2,
          shapeHHsepMM_none_second '.' hb2]
  · -- head is not a digit: both sides reject
    have hb : isDigitCh c1 = false := by simpa using h1
    have hH : shapeH (c1 :: rest) = none := by simp [shapeH, hb]
    simp [claimShapesAmended, matchTime, tryShape, hH, hb,
      shapeHH_none_head hb, shapeHsepMM_none_head ':' hb,
      shapeHsepMM_none_head '.' hb, shapeHHsepMM_none_head ':' hb,
      shapeHHsepMM_none_head '.' hb]

/-- C3 (amended): the accepted time inputs are exactly the strings that,
after trimming, have shape `H`, `HH`, `H:MM`, `HH:MM`, `H.MM`, or
`HH.MM` — the claim's list plus `HH.MM` — optionally suffixed with
`AM`/`PM` (case-insensitive, optional whitespace before the suffix),
whose hour after 12-hour conversion is at most 23 and whose minutes are
at most 59; accepted inputs are stored as zero-padded `HH:MM`, and
everything else fails with a validation error.  The claim's own examples
are verified, as are rejections for out-of-range values and unmatched
shapes. -/
theorem claim3_time_normalization :
    (∀ s, normalizeTime s = claimNormalizeTimeAmended s) ∧
    normalizeTime "9:30 AM" = some "09:30" ∧
    normalizeTime "21:05" = some "21:05" ∧
    normalizeTime "12:00 AM" = some "00:00" ∧
    normalizeTime "9:75" = none ∧
    normalizeTime "24:00" = none ∧
    normalizeTime "99" = none ∧
    normalizeTime "not a time" = none := by
  refine ⟨?_, by decide, by decide, by decide, by decide, by decide,
    by decide, by decide⟩
  intro s
  unfold normalizeTime claimNormalizeTimeAmended claimTimePipeline
  rw [claimShapesAmended_eq_matchTime]

/-- C3 counterexample: `"21.05"` (shape `HH.MM`) is outside the claim's
accepted-shape list, so by the claim the save should fail — but the code
accepts it and stores `"21:05"`. -/
theorem claim3_time_normalization_counterexample :
    claimNormalizeTimeLiteral "21.05" = none ∧
    normalizeTime "21.05" = some "21:05" := by
  decide

/-! ### Idempotence of time normalization (C10) -/

theorem dropWhile_eq_self_of_none {p : Char → Bool} {l : List Char}
    (h : ∀ c ∈ l, p c = false) : l.dropWhile p = l := by
  cases l with
  | nil => rfl
  | cons a as =>
    rw [List.dropWhile_cons, h a (List.mem_cons_self _ _)]
    simp

theorem jsTrim_eq_self {l : List Char}
    (h : ∀ c ∈ l, isJsSpace c = false) : jsTrim l = l := by
  have h1 : l.dropWhile isJsSpace = l := dropWhile_eq_self_of_none h
  have h2 : l.reverse.dropWhile isJsSpace = l.reverse :=
    dropWhile_eq_self_of_none (fun c hc => h c (List.mem_reverse.mp hc))
  rw [jsTrim, h1, h2, List.reverse_reverse]

theorem natRepr_lt10 {n : Nat} (h : n < 10) :
    natRepr n = ⟨[Nat.digitChar n]⟩ := by
  rw [natRepr, natDigitsLE, natDigitsAux, if_pos h]
  rfl

theorem natRepr_two_digits {n : Nat} (h10 : 10 ≤ n) (h99 : n < 100) :
    natRepr n = ⟨[Nat.digitChar (n / 10), Nat.digitChar (n % 10)]⟩ := by
  obtain ⟨m, rfl⟩ : ∃ m, n = m + 1 := ⟨n - 1, by omega⟩
  have hd : (m + 1) / 10 < 10 := by omega
  rw [natRepr, natDigitsLE, natDigitsAux, if_neg (by omega), natDigitsAux,
    if_pos hd]
  rfl

theorem padStart2_natRepr_lt10 {n : Nat} (h : n < 10) :
    padStart2 (natRepr n) = ⟨['0', Nat.digitChar n]⟩ := by
  rw [natRepr_lt10 h]
  rfl

theorem padStart2_natRepr_ge10 {n : Nat} (h10 : 10 ≤ n) (h99 : n < 100) :
    padStart2 (natRepr n) = ⟨[Nat.digitChar (n / 10), Nat.digitChar (n % 10)]⟩ := by
  rw [natRepr_two_digits h10 h99]
  rfl

theorem isDigitCh_digitChar {k : Nat} (h : k < 10) :
    isDigitCh (Nat.digitChar k) = true := by
  simp only [isDigitCh, digitChar_toNat h, Bool.and_eq_true, decide_eq_true_eq]
  omega

theorem digitVal_digitChar {k : Nat} (h : k < 10) :
    digitVal (Nat.digitChar k) = k := by
  rw [digitVal, digitChar_toNat h]
  omega

theorem digitsVal_pair (a b : Char) :
    digitsVal [a, b] = 10 * digitVal a + digitVal b := by
  simp [digitsVal]

/-- Every successfully normalized time is a zero-padded rendering of an
in-range hour/minute pair. -/
theorem normalizeTime_some {s out : String} (h : normalizeTime s = some out) :
    ∃ hh mm, hh ≤ 23 ∧ mm ≤ 59 ∧
      out = padStart2 (natRepr hh) ++ ":" ++ padStart2 (natRepr mm) := by
  unfold normalizeTime at h
  rcases hmt : matchTime (jsTrim s.data) with _ | ⟨ds, mins, mer⟩
  · rw [hmt] at h; cases h
  · rw [hmt] at h
    dsimp only at h
    split at h
    · rename_i hcond
      rw [Bool.and_eq_true, decide_eq_true_eq, decide_eq_true_eq] at hcond
      exact ⟨_, _, hcond.1, hcond.2, (Option.some.inj h).symm⟩
    · cases h

/-- Normalizing a rendered `[t1, t2, ':', m1, m2]` time succeeds, with
hour `10*t1 + t2` and minutes `10*m1 + m2`. -/
theorem normalizeTime_two_two {t u v w : Char}
    (h1 : isDigitCh t = true) (h2 : isDigitCh u = true)
    (h3 : isDigitCh v = true) (h4 : isDigitCh w = true)
    (hhv : 10 * digitVal t + digitVal u ≤ 23)
    (hmv : 10 * digitVal v + digitVal w ≤ 59) :
    normalizeTime ⟨[t, u, ':', v, w]⟩
      = some (padStart2 (natRepr (10 * digitVal t + digitVal u)) ++ ":" ++
          padStart2 (natRepr (10 * digitVal v + digitVal w))) := by
  have hT : jsTrim [t, u, ':', v, w] = [t, u, ':', v, w] := by
    apply jsTrim_eq_self
    intro c hc
    simp only [List.mem_cons, List.not_mem_nil, or_false] at hc
    rcases hc with rfl | rfl | rfl | rfl | rfl
    · exact isJsSpace_eq_false_of_digit h1
    · exact isJsSpace_eq_false_of_digit h2
    · decide
    · exact isJsSpace_eq_false_of_digit h3
    · exact isJsSpace_eq_false_of_digit h4
  unfold normalizeTime
  have hdata : (⟨[t, u, ':', v, w]⟩ : String).data
      = [t, u, ':', v, w] := rfl
  rw [hdata, hT]
  simp [matchTime, matchAfterDigits, h1, h2, h3, h4, parseTail_nil,
    applyMeridiem, digitsVal_pair, hhv, hmv]

/-- Normalizing the rendering of any in-range hour/minute pair returns
exactly that rendering. -/
theorem normalizeTime_render {hh mm : Nat} (h23 : hh ≤ 23) (h59 : mm ≤ 59) :
    normalizeTime (padStart2 (natRepr hh) ++ ":" ++ padStart2 (natRepr mm))
      = some (padStart2 (natRepr hh) ++ ":" ++ padStart2 (natRepr mm)) := by
  have h0 : digitVal '0' = 0 := by decide
  by_cases hh10 : hh < 10 <;> by_cases hm10 : mm < 10
  · rw [padStart2_natRepr_lt10 hh10, padStart2_natRepr_lt10 hm10]
    have hX : 10 * digitVal '0' + digitVal (Nat.digitChar hh) = hh := by
      rw [h0, digitVal_digitChar hh10]; omega
    have hY : 10 * digitVal '0' + digitVal (Nat.digitChar mm) = mm := by
      rw [h0, digitVal_digitChar hm10]; omega
    have := normalizeTime_two_two (t := '0') (v := '0')
      (by decide) (isDigitCh_digitChar hh10)
      (by decide) (isDigitCh_digitChar hm10)
      (by rw [hX]; exact h23) (by rw [hY]; exact h59)
    rw [hX, hY, padStart2_natRepr_lt10 hh10, padStart2_natRepr_lt10 hm10]
      at this
    exact this
  · have hm99 : mm < 100 := by omega
    rw [padStart2_natRepr_lt10 hh10, padStart2_natRepr_ge10 (by omega) hm99]
    have hX : 10 * digitVal '0' + digitVal (Nat.digitChar hh) = hh := by
      rw [h0, digitVal_digitChar hh10]; omega
    have hY : 10 * digitVal (Nat.digitChar (mm / 10))
        + digitVal (Nat.digitChar (mm % 10)) = mm := by
      rw [digitVal_digitChar (by omega), digitVal_digitChar (by omega)]
      omega
    have := normalizeTime_two_two (t := '0')
      (by decide) (isDigitCh_digitChar hh10)
      (isDigitCh_digitChar (k := mm / 10) (by omega))
      (isDigitCh_digitChar (k := mm % 10) (by omega))
      (by rw [hX]; exact h23) (by rw [hY]; exact h59)
    rw [hX, hY, padStart2_natRepr_lt10 hh10,
      padStart2_natRepr_ge10 (by omega) hm99] at this
    exact this
  · have hh99 : hh < 100 := by omega
    rw [padStart2_natRepr_ge10 (by omega) hh99, padStart2_natRepr_lt10 hm10]
    have hX : 10 * digitVal (Nat.digitChar (hh / 10))
        + digitVal (Nat.digitChar (hh % 10)) = hh := by
      rw [digitVal_digitChar (by omega), digitVal_digitChar (by omega)]
      omega
    have hY : 10 * digitVal '0' + digitVal (Nat.digitChar mm) = mm := by
      rw [h0, digitVal_digitChar hm10]; omega
    have := normalizeTime_two_two (isDigitCh_digitChar (k := hh / 10) (by omega))
      (isDigitCh_digitChar (k := hh % 10) (by omega)) (v := '0') (by decide)
      (isDigitCh_digitChar hm10)
      (by rw [hX]; exact h23) (by rw [hY]; exact h59)
    rw [hX, hY, padStart2_natRepr_ge10 (by omega) hh99,
      padStart2_natRepr_lt10 hm10] at this
    exact this
  · have hh99 : hh < 100 := by omega
    have hm99 : mm < 100 := by omega
    rw [padStart2_natRepr_ge10 (by omega) hh99,
      padStart2_natRepr_ge10 (by omega) hm99]
    have hX : 10 * digitVal (Nat.digitChar (hh / 10))
        + digitVal (Nat.digitChar (hh % 10)) = hh := by
      rw [digitVal_digitChar (by omega), digitVal_digitChar (by omega)]
      omega
    have hY : 10 * digitVal (Nat.digitChar (mm / 10))
        + digitVal (Nat.digitChar (mm % 10)) = mm := by
      rw [digitVal_digitChar (by omega), digitVal_digitChar (by omega)]
      omega
    have := normalizeTime_two_two (isDigitCh_digitChar (k := hh / 10) (by omega))
      (isDigitCh_digitChar (k := hh % 10) (by omega))
      (isDigitCh_digitChar (k := mm / 10) (by omega))
      (isDigitCh_digitChar (k := mm % 10) (by omega))
      (by rw [hX]; exact h23) (by rw [hY]; exact h59)
    rw [hX, hY, padStart2_natRepr_ge10 (by omega) hh99,
      padStart2_natRepr_ge10 (by omega) hm99] at this
    exact this

/-- C10: time normalization is idempotent — feeding a successfully
normalized `HH:MM` output back through the normalization step is
accepted and returns the same string. -/
theorem claim10_time_idempotent (s out : String)
    (h : normalizeTime s = some out) : normalizeTime out = some out := by
  obtain ⟨hh, mm, h23, h59, rfl⟩ := normalizeTime_some h
  exact normalizeTime_render h23 h59

theorem claim10_time_idempotent_witness :
    normalizeTime "09:30" = some "09:30" :=
  claim10_time_idempotent "9:30 AM" "09:30" (by decide)

/-! ### Date normalization (event.model.ts lines 165-172)

`new Date(string)` / `toISOString()` are host-library primitives, not
code of this repository, so they are modelled after their ECMA-262
specification: the Date Time String Format subset with deterministic
semantics — date-only forms `YYYY`, `YYYY-MM`, `YYYY-MM-DD`
(interpreted as UTC midnight) and date-times `…THH:MM[:SS[.sss]]`
carrying an explicit offset (`Z` or `±HH:MM`).  Date-times without an
offset (host-local time) and host-specific fallback formats are outside
the model and map to parse failure (`NaN`). -/

/-- Exactly two digits. -/
def parse2 : List Char → Option (Nat × List Char)
  | a :: b :: rest =>
    if isDigitCh a && isDigitCh b then
      some (10 * digitVal a + digitVal b, rest)
    else none
  | _ => none

/-- Exactly four digits. -/
def parse4 : List Char → Option (Nat × List Char)
  | a :: b :: c :: d :: rest =>
    if isDigitCh a && isDigitCh b && isDigitCh c && isDigitCh d then
      some (1000 * digitVal a + 100 * digitVal b + 10 * digitVal c
        + digitVal d, rest)
    else none
  | _ => none

def isLeapYear (y : Nat) : Bool :=
  (y % 4 = 0 && y % 100 ≠ 0) || y % 400 = 0

def monthLen (y m : Nat) : Nat :=
  if m = 2 then (if isLeapYear y then 29 else 28)
  else if m = 4 || m = 6 || m = 9 || m = 11 then 30
  else 31

/-- Days since the Unix epoch of a civil date (proleptic Gregorian),
in the standard era-based formulation. -/
def daysFromCivil (y : Int) (m d : Nat) : Int :=
  let yy := if m ≤ 2 then y - 1 else y
  let era := Int.fdiv yy 400
  let yoe := Int.toNat (yy - era * 400)
  let mp := (m + 9) % 12
  let doy := (153 * mp + 2) / 5 + d - 1
  let doe := yoe * 365 + yoe / 4 - yoe / 100 + doy
  era * 146097 + (doe : Int) - 719468

/-- Civil date (year, month, day) of a count of days since the Unix
epoch; inverse of `daysFromCivil`. -/
def civilFromDays (z0 : Int) : Int × Nat × Nat :=
  let z := z0 + 719468
  let era := Int.fdiv z 146097
  let doe := Int.toNat (z - era * 146097)
  let yoe := (doe - doe / 1460 + doe / 36524 - doe / 146096) / 365
  let y := (yoe : Int) + era * 400
  let doy := doe - (365 * yoe + yoe / 4 - yoe / 100)
  let mp := (5 * doy + 2) / 153
  let d := doy - (153 * mp + 2) / 5 + 1
  let m := if mp < 10 then mp + 3 else mp - 9
  (if m ≤ 2 then y + 1 else y, m, d)

/-- `YYYY[-MM[-DD]]`, with month and day validated against the
calendar; omitted parts default to 1. -/
def parseDateYMD (cs : List Char) :
    Option ((Nat × Nat × Nat) × List Char) :=
  (parse4 cs).bind fun p =>
    match p.2 with
    | '-' :: r2 =>
      (parse2 r2).bind fun q =>
        if 1 ≤ q.1 && q.1 ≤ 12 then
          match q.2 with
          | '-' :: r4 =>
            (parse2 r4).bind fun r =>
              if 1 ≤ r.1 && r.1 ≤ monthLen p.1 q.1 then
                some ((p.1, q.1, r.1), r.2)
              else none
          | rest => some ((p.1, q.1, 1), rest)
        else none
    | rest => some ((p.1, 1, 1), rest)

/-- Optional `:SS[.sss]` (seconds, milliseconds). -/
def parseSecFrac : List Char → Option (Nat × Nat × List Char)
  | ':' :: rest =>
    (parse2 rest).bind fun s =>
      match s.2 with
      | '.' :: r2 =>
        match r2 with
        | a :: b :: c :: r3 =>
          if isDigitCh a && isDigitCh b && isDigitCh c then
            some (s.1, 100 * digitVal a + 10 * digitVal b + digitVal c, r3)
          else none
        | _ => none
      | rest2 => some (s.1, 0, rest2)
  | cs => some (0, 0, cs)

/-- `HH:MM[:SS[.sss]]` as milliseconds within the day. -/
def parseTimeOfDay (cs : List Char) : Option (Nat × List Char) :=
  (parse2 cs).bind fun hh =>
    match hh.2 with
    | ':' :: r2 =>
      (parse2 r2).bind fun mi =>
        (parseSecFrac mi.2).bind fun sf =>
          if hh.1 ≤ 23 && mi.1 ≤ 59 && sf.1 ≤ 59 then
            some (((hh.1 * 60 + mi.1) * 60 + sf.1) * 1000 + sf.2.1, sf.2.2)
          else none
    | _ => none

/-- UTC offset in minutes: `Z`, `+HH:MM`, or `-HH:MM`, consuming the
whole remainder. -/
def parseOffset : List Char → Option Int
  | ['Z'] => some 0
  | sign :: a :: b :: ':' :: c :: d :: [] =>
    if (sign = '+' || sign = '-') && isDigitCh a && isDigitCh b &&
        isDigitCh c && isDigitCh d then
      let hh := 10 * digitVal a + digitVal b
      let mi := 10 * digitVal c + digitVal d
      if hh ≤ 23 && mi ≤ 59 then
        some ((if sign = '-' then -1 else 1) * ((hh : Int) * 60 + mi))
      else none
    else none
  | _ => none

/-- Epoch milliseconds of a string in the modeled ECMA-262 Date Time
String Format; `none` is `NaN` (parse failure). -/
def jsDateParseL (cs : List Char) : Option Int :=
  (parseDateYMD cs).bind fun d =>
    match d.2 with
    | [] =>
      some (daysFromCivil (d.1.1 : Int) d.1.2.1 d.1.2.2 * 86400000)
    | 'T' :: r =>
      (parseTimeOfDay r).bind fun t =>
        (parseOffset t.2).map fun off =>
          daysFromCivil (d.1.1 : Int) d.1.2.1 d.1.2.2 * 86400000
            + (t.1 : Int) - off * 60000
    | _ => none

def jsDateParse (s : String) : Option Int :=
  jsDateParseL s.data

/-- Zero-pad a number below 10000 to four digits. -/
def pad4 (n : Nat) : String :=
  if n < 10 then "000" ++ natRepr n
  else if n < 100 then "00" ++ natRepr n
  else if n < 1000 then "0" ++ natRepr n
  else natRepr n

/-- `toISOString().slice(0, 10)`: the UTC calendar date of the instant.
The model renders years clamped into 0-9999, which covers every instant
relevant here. -/
def isoDateOfEpoch (ms : Int) : String :=
  let days := Int.fdiv ms 86400000
  let c := civilFromDays days
  pad4 c.1.toNat ++ "-" ++ padStart2 (natRepr c.2.1) ++ "-" ++
    padStart2 (natRepr c.2.2)

/-- `pre('save')` date normalization: `new Date(doc.date)`, throwing on
`NaN` (modelled as `none`), else storing `toISOString().slice(0, 10)`. -/
def normalizeDate (s : String) : Option String :=
  (jsDateParse s).map isoDateOfEpoch

/-- C4 (amended): the save fails with a validation error exactly when
the date string fails to parse (within the modeled ISO subset of the
host's date parsing); on success the stored value is the calendar date
— in UTC — of the parsed instant, in `YYYY-MM-DD` form.  For date-only
input this is the written date; for date-time input with an offset, the
conversion to UTC can shift the stored date across midnight, so time
and timezone are not simply discarded. -/
theorem claim4_date_normalization :
    (∀ s, normalizeDate s = none ↔ jsDateParse s = none) ∧
    (∀ s ms, jsDateParse s = some ms →
      normalizeDate s = some (isoDateOfEpoch ms)) ∧
    normalizeDate "not-a-date" = none ∧
    normalizeDate "2024-02-30" = none ∧
    normalizeDate "2024-03-01" = some "2024-03-01" ∧
    normalizeDate "2024-03-01T23:30:00Z" = some "2024-03-01" ∧
    normalizeDate "2024-03-01T23:30:00-05:00" = some "2024-03-02" := by
  refine ⟨?_, ?_, by decide, by decide, by decide, by decide, by decide⟩
  · intro s
    unfold normalizeDate
    cases jsDateParse s <;> simp
  · intro s ms h
    unfold normalizeDate
    rw [h]
    rfl

theorem claim4_date_normalization_witness :
    normalizeDate "2024-03-01" = some (isoDateOfEpoch 1709251200000) :=
  claim4_date_normalization.2.1 "2024-03-01" 1709251200000 (by decide)

/-- C4 counterexample: for the valid date-time string
`"2024-03-01T23:30:00-05:00"` the save succeeds but stores
`"2024-03-02"` — the UTC calendar date of the instant — not the
input's own calendar-date portion `"2024-03-01"`, so the time and
timezone components are not merely discarded. -/
theorem claim4_date_normalization_counterexample :
    normalizeDate "2024-03-01T23:30:00-05:00" = some "2024-03-02" ∧
    ("2024-03-02" : String) ≠ "2024-03-01" := by
  decide

/-! ### Booking referential check (booking.model.ts lines 38-50) -/

def isHexCh (c : Char) : Bool :=
  isDigitCh c || ('a' ≤ c && c ≤ 'f') || ('A' ≤ c && c ≤ 'F')

/-- `Types.ObjectId.isValid(String(id))` on string input: a 24-character
hex string, or any 12-character string (12 bytes). -/
def isValidObjectId (s : String) : Bool :=
  (s.length = 24 && s.data.all isHexCh) || s.length = 12

/-- `BookingSchema.pre('save')`: reject a syntactically invalid
identifier, then reject a reference to a non-existent event.  `events`
is the list of existing event identifiers queried by
`Event.exists({ _id })`. -/
def bookingPreSave (events : List String) (eventId : String) :
    Except String Unit :=
  if !isValidObjectId eventId then Except.error "Invalid eventId"
  else if eventId ∈ events then Except.ok ()
  else Except.error "Referenced event does not exist"

/-- C5: on every Booking save, an invalid identifier fails with
"Invalid eventId"; a valid identifier that matches no existing event
fails with "Referenced event does not exist"; a valid identifier of an
existing event passes the check. -/
theorem claim5_booking_referential (events : List String) (eventId : String) :
    (isValidObjectId eventId = false →
      bookingPreSave events eventId = Except.error "Invalid eventId") ∧
    (isValidObjectId eventId = true → eventId ∉ events →
      bookingPreSave events eventId
        = Except.error "Referenced event does not exist") ∧
    (isValidObjectId eventId = true → eventId ∈ events →
      bookingPreSave events eventId = Except.ok ()) := by
  refine ⟨?_, ?_, ?_⟩
  · intro h
    simp [bookingPreSave, h]
  · intro h hmem
    simp [bookingPreSave, h, hmem]
  · intro h hmem
    simp [bookingPreSave, h, hmem]

theorem claim5_booking_referential_witness :
    bookingPreSave ["65faf73d9c6f1a2b3c4d5e6f"] "65faf73d9c6f1a2b3c4d5e6f"
      = Except.ok () ∧
    bookingPreSave [] "65faf73d9c6f1a2b3c4d5e6f"
      = Except.error "Referenced event does not exist" ∧
    bookingPreSave [] "not-an-id" = Except.error "Invalid eventId" :=
  ⟨(claim5_booking_referential ["65faf73d9c6f1a2b3c4d5e6f"]
      "65faf73d9c6f1a2b3c4d5e6f").2.2 (by decide) (by decide),
   (claim5_booking_referential [] "65faf73d9c6f1a2b3c4d5e6f").2.1
      (by decide) (by decide),
   (claim5_booking_referential [] "not-an-id").1 (by decide)⟩

/-! ### Connection cache (lib/mongodb.ts lines 53-84) -/

/-- The process-wide cache `global._mongooseCache`: the connected handle
and/or the in-flight connection promise, identified by numbers. -/
structure MongooseCache where
  conn : Option Nat
  promise : Option Nat
deriving DecidableEq

/-- What one call to `connectToDatabase` awaits. -/
inductive ConnectResult where
  | cachedConn : Nat → ConnectResult
  | awaitPromise : Nat → ConnectResult
  | newAttempt : Nat → ConnectResult
deriving DecidableEq

/-- One call to `connectToDatabase` as a step function on the cache.
`fresh` is the identity the promise created by `mongoose.connect(...)`
would get if a new attempt is started.  Returns what the call awaits
together with the updated cache; cooperative scheduling means the cache
update of `cache.promise` happens before any other call runs. -/
def connectToDatabase (fresh : Nat) (c : MongooseCache) :
    ConnectResult × MongooseCache :=
  match c.conn with
  | some h => (ConnectResult.cachedConn h, c)
  | none =>
    match c.promise with
    | some p => (ConnectResult.awaitPromise p, c)
    | none => (ConnectResult.newAttempt fresh, ⟨c.conn, some fresh⟩)

/-- Resolution of the connection promise: the `.then` callback stores
the handle in `cache.conn` (the promise field is left as is). -/
def resolveConnect (c : MongooseCache) (h : Nat) : MongooseCache :=
  ⟨some h, c.promise⟩

/-- Rejection of the connection promise: the code installs no rejection
handler and clears nothing — the cache is returned untouched, with
`promise` still holding the rejected promise. -/
def rejectConnect (c : MongooseCache) : MongooseCache :=
  c

/-- The handle a caller eventually receives, given the resolution `env`
assigning an outcome to each promise. -/
def awaitedHandle (env : Nat → Nat) : ConnectResult → Nat
  | ConnectResult.cachedConn h => h
  | ConnectResult.awaitPromise p => env p
  | ConnectResult.newAttempt p => env p

def emptyCache : MongooseCache :=
  ⟨none, none⟩

/-- C6: when connected, the call returns the cached handle and leaves
the cache untouched; when an attempt is in flight, the call returns the
same pending promise and leaves the cache untouched; two calls from the
empty cache produce exactly one new attempt (the first), the second
awaits that same promise, and both resolve to the same handle; and
whenever a promise is in flight the cache keeps holding exactly that
promise and no call starts a second attempt. -/
theorem claim6_connection_cache (f f' h p q : Nat) (o : Option Nat)
    (env : Nat → Nat) :
    connectToDatabase f ⟨some h, o⟩
      = (ConnectResult.cachedConn h, ⟨some h, o⟩) ∧
    connectToDatabase f ⟨none, some p⟩
      = (ConnectResult.awaitPromise p, ⟨none, some p⟩) ∧
    (connectToDatabase f emptyCache).1 = ConnectResult.newAttempt f ∧
    (connectToDatabase f' (connectToDatabase f emptyCache).2).1
      = ConnectResult.awaitPromise f ∧
    awaitedHandle env (connectToDatabase f emptyCache).1
      = awaitedHandle env
          (connectToDatabase f' (connectToDatabase f emptyCache).2).1 ∧
    (connectToDatabase f ⟨o, some p⟩).2.promise = some p ∧
    (connectToDatabase f ⟨o, some p⟩).1 ≠ ConnectResult.newAttempt q := by
  refine ⟨rfl, rfl, rfl, rfl, rfl, ?_, ?_⟩ <;>
    cases o <;> simp [connectToDatabase, awaitedHandle]

/-- C7, evaluated on the code: from the empty cache a call starts
attempt `f`; after that attempt fails (`rejectConnect` models the
rejection — the code clears nothing), the cache still holds promise
`f`, and a subsequent call re-awaits the failed promise `f` rather than
starting a new attempt, so no retry is possible. -/
theorem claim7_no_retry_after_failure (f f' q : Nat) :
    (rejectConnect (connectToDatabase f emptyCache).2).promise = some f ∧
    (connectToDatabase f'
        (rejectConnect (connectToDatabase f emptyCache).2)).1
      = ConnectResult.awaitPromise f ∧
    (connectToDatabase f'
        (rejectConnect (connectToDatabase f emptyCache).2)).1
      ≠ ConnectResult.newAttempt q := by
  refine ⟨rfl, rfl, ?_⟩
  simp [connectToDatabase, rejectConnect, emptyCache]

/-! ### The full Event pre-save hook (event.model.ts lines 130-212) -/

structure EventDoc where
  title : String
  slug : String
  description : String
  overview : String
  image : String
  venue : String
  location : String
  date : String
  time : String
  mode : String
  audience : String
  agenda : List String
  organizer : String
  tags : List String
deriving DecidableEq

/-- The whole `pre('save')` hook as a function of the document, the
`isModified` flags for the three fields the hook inspects, the slugs
used by other records, and the current timestamp.  Errors carry the
thrown messages.  The `.getD doc.slug` default on the slug branch is
never taken: fuel `used.length + 1` always suffices (`genSlug_spec`). -/
def preSaveEvent (mTitle mDate mTime : Bool) (used : List String)
    (now : Nat) (doc : EventDoc) : Except String EventDoc :=
  let d1 := if mTitle then
      { doc with slug := (genSlugN used doc.title now).getD doc.slug }
    else doc
  match (if mDate then normalizeDate d1.date else some d1.date) with
  | none => Except.error "Invalid date format; expected a valid date"
  | some dd =>
    let d2 := { d1 with date := dd }
    match (if mTime then normalizeTime d2.time else some d2.time) with
    | none => Except.error
        "Invalid time format; expected HH:MM or a common human time format"
    | some tt => Except.ok { d2 with time := tt }

/-- C8: the save hook never touches any field other than `slug`,
`date`, and `time`; `slug` is left unchanged whenever the title is not
change-detected (regardless of its value), and `date`/`time` are left
unchanged whenever those fields are not change-detected. -/
theorem claim8_frame (mTitle mDate mTime : Bool) (used : List String)
    (now : Nat) (doc r : EventDoc)
    (h : preSaveEvent mTitle mDate mTime used now doc = Except.ok r) :
    r.title = doc.title ∧
    r.description = doc.description ∧
    r.overview = doc.overview ∧
    r.image = doc.image ∧
    r.venue = doc.venue ∧
    r.location = doc.location ∧
    r.mode = doc.mode ∧
    r.audience = doc.audience ∧
    r.agenda = doc.agenda ∧
    r.organizer = doc.organizer ∧
    r.tags = doc.tags ∧
    (mTitle = false → r.slug = doc.slug) ∧
    (mDate = false → r.date = doc.date) ∧
    (mTime = false → r.time = doc.time) := by
  unfold preSaveEvent at h
  cases mTitle <;> cases mDate <;> cases mTime <;>
    simp only [Bool.false_eq_true, if_false, if_true] at h <;>
    (try split at h) <;> (try split at h) <;>
    first
      | (obtain rfl := Except.ok.inj h
         exact ⟨rfl, rfl, rfl, rfl, rfl, rfl, rfl, rfl, rfl, rfl, rfl,
           by simp, by simp, by simp⟩)
      | cases h

theorem claim8_frame_witness :
    let d0 : EventDoc :=
      ⟨"t", "s", "de", "o", "i", "v", "l", "2024-01-01", "09:00", "m",
        "a", ["g"], "or", ["x"]⟩
    d0.title = d0.title ∧
    d0.description = d0.description ∧
    d0.overview = d0.overview ∧
    d0.image = d0.image ∧
    d0.venue = d0.venue ∧
    d0.location = d0.location ∧
    d0.mode = d0.mode ∧
    d0.audience = d0.audience ∧
    d0.agenda = d0.agenda ∧
    d0.organizer = d0.organizer ∧
    d0.tags = d0.tags ∧
    (false = false → d0.slug = d0.slug) ∧
    (false = false → d0.date = d0.date) ∧
    (false = false → d0.time = d0.time) :=
  claim8_frame false false false [] 0
    ⟨"t", "s", "de", "o", "i", "v", "l", "2024-01-01", "09:00", "m",
      "a", ["g"], "or", ["x"]⟩
    ⟨"t", "s", "de", "o", "i", "v", "l", "2024-01-01", "09:00", "m",
      "a", ["g"], "or", ["x"]⟩
    rfl

end DevEvents
